import Mathlib

/-! Register file of `cpu.go` (package `gb`)

A shallow embedding of the register file: the constant block, the `Registers`
and `Flags` structures, the pair accessors built on `combine` and `set`, and
the flag decoder and encoder `ParseFlags` and `SetFlags`.

Go's `byte` and `uint16` are embedded as natural numbers; every conversion and
every operation that can leave the width is followed by an explicit reduction
modulo `2 ^ 8` or `2 ^ 16`.  Go gives `<<`, `>>` and `&` the same precedence
and associates them to the left, and they bind tighter than `|`.
-/

namespace gb

/-! ## The constant block -/

/-- The constant specifications of the single `const ( ... )` block, in source order. -/
inductive ConstSpec where
  | a | b | c | d | e | f | h | l | af | bc | de | hl
  | carry | halfCarry | subtract | zero
  deriving DecidableEq, Repr

/-- Value of `iota` in a constant specification: its index within the block,
counted from zero over every specification of the block. -/
def iota : ConstSpec → Nat
  | .a => 0
  | .b => 1
  | .c => 2
  | .d => 3
  | .e => 4
  | .f => 5
  | .h => 6
  | .l => 7
  | .af => 8
  | .bc => 9
  | .de => 10
  | .hl => 11
  | .carry => 12
  | .halfCarry => 13
  | .subtract => 14
  | .zero => 15

/-- Conversion to `byte`. -/
def toByte (n : Nat) : Nat := n % 2 ^ 8

/-- Conversion to `uint16`. -/
def toUint16 (n : Nat) : Nat := n % 2 ^ 16

/-- Constant `a register = iota + 1`. -/
def a : Nat := iota .a + 1
/-- Constant `b`, repeating `register = iota + 1`. -/
def b : Nat := iota .b + 1
/-- Constant `c`, repeating `register = iota + 1`. -/
def c : Nat := iota .c + 1
/-- Constant `d`, repeating `register = iota + 1`. -/
def d : Nat := iota .d + 1
/-- Constant `e`, repeating `register = iota + 1`. -/
def e : Nat := iota .e + 1
/-- Constant `f`, repeating `register = iota + 1`. -/
def f : Nat := iota .f + 1
/-- Constant `h`, repeating `register = iota + 1`. -/
def h : Nat := iota .h + 1
/-- Constant `l`, repeating `register = iota + 1`. -/
def l : Nat := iota .l + 1
/-- Constant `af`, repeating `register = iota + 1`. -/
def af : Nat := iota .af + 1
/-- Constant `bc`, repeating `register = iota + 1`. -/
def bc : Nat := iota .bc + 1
/-- Constant `de`, repeating `register = iota + 1`. -/
def de : Nat := iota .de + 1
/-- Constant `hl`, repeating `register = iota + 1`. -/
def hl : Nat := iota .hl + 1

/-- Constant `carry byte = iota + 4`. -/
def carry : Nat := iota .carry + 4
/-- Constant `halfCarry`, repeating `byte = iota + 4`. -/
def halfCarry : Nat := iota .halfCarry + 4
/-- Constant `subtract`, repeating `byte = iota + 4`. -/
def subtract : Nat := iota .subtract + 4
/-- Constant `zero`, repeating `byte = iota + 4`. -/
def zero : Nat := iota .zero + 4

/-! ## Data model -/

/-- The `Registers` struct: nine `byte` fields. -/
structure Registers where
  A : Nat
  B : Nat
  C : Nat
  D : Nat
  E : Nat
  F : Nat
  H : Nat
  L : Nat
  Flags : Nat
  deriving DecidableEq, Repr

/-- The `Flags` struct: four booleans. -/
structure Flags where
  Zero : Bool
  Subtract : Bool
  HalfCarry : Bool
  Carry : Bool
  deriving DecidableEq, Repr

/-- Every field of a register state holds a `byte`. -/
def Registers.WF (r : Registers) : Prop :=
  r.A < 256 ∧ r.B < 256 ∧ r.C < 256 ∧ r.D < 256 ∧ r.E < 256 ∧ r.F < 256 ∧
    r.H < 256 ∧ r.L < 256 ∧ r.Flags < 256

instance (r : Registers) : Decidable r.WF := by
  unfold Registers.WF; infer_instance

/-! ## Operations -/

/-- Method `combine`: `uint16(i)<<8 | uint16(j)`. -/
def Registers.combine (_r : Registers) (i j : Nat) : Nat :=
  toUint16 (toUint16 i <<< 8) ||| toUint16 j

/-- Method `set`: `v1 := byte(i & 0xFF00 >> 8)`, `v2 := byte(i & 0xFF)`, then the
`switch` on the register identifier, which has no `default` case. -/
def Registers.set (r : Registers) (reg : Nat) (i : Nat) : Registers :=
  let v1 := toByte ((i &&& 0xFF00) >>> 8)
  let v2 := toByte (i &&& 0xFF)
  if reg = af then { r with A := v1, F := v2 }
  else if reg = bc then { r with B := v1, C := v2 }
  else if reg = de then { r with D := v1, E := v2 }
  else if reg = hl then { r with H := v1, L := v2 }
  else r

/-- Outcome of a call `r.set(reg, i)` on a non-nil receiver: `some` of the resulting
state when the call returns normally, `none` when it signals an error.  The method
has no result value and none of its statements can panic, so every call returns. -/
def Registers.setCall (r : Registers) (reg : Nat) (i : Nat) : Option Registers :=
  some (r.set reg i)

/-- Method `AF`. -/
def Registers.AF (r : Registers) : Nat := r.combine r.A r.F
/-- Method `SetAF`. -/
def Registers.SetAF (r : Registers) (i : Nat) : Registers := r.set af i
/-- Method `BC`. -/
def Registers.BC (r : Registers) : Nat := r.combine r.B r.C
/-- Method `SetBC`. -/
def Registers.SetBC (r : Registers) (i : Nat) : Registers := r.set bc i
/-- Method `DE`. -/
def Registers.DE (r : Registers) : Nat := r.combine r.D r.E
/-- Method `SetDE`. -/
def Registers.SetDE (r : Registers) (i : Nat) : Registers := r.set de i
/-- Method `HL`. -/
def Registers.HL (r : Registers) : Nat := r.combine r.H r.L
/-- Method `SetHL`. -/
def Registers.SetHL (r : Registers) (i : Nat) : Registers := r.set hl i

/-- Method `ParseFlags`: each field is `((r.Flags >> k) & 0x1) != 0` for its constant `k`. -/
def Registers.ParseFlags (r : Registers) : gb.Flags :=
  { Zero := ((r.Flags >>> zero) &&& 0x1) != 0
    Subtract := ((r.Flags >>> subtract) &&& 0x1) != 0
    HalfCarry := ((r.Flags >>> halfCarry) &&& 0x1) != 0
    Carry := ((r.Flags >>> carry) &&& 0x1) != 0 }

/-- Function `boolToUint8`. -/
def boolToUint8 (x : Bool) : Nat := if x then 1 else 0

/-- Method `SetFlags`: the four `byte` shifts, each reduced to eight bits, joined by `|`
and stored in the `Flags` field. -/
def Registers.SetFlags (r : Registers) (fl : gb.Flags) : Registers :=
  { r with Flags :=
      toByte (boolToUint8 fl.Zero <<< zero) ||| toByte (boolToUint8 fl.Subtract <<< subtract) |||
        toByte (boolToUint8 fl.HalfCarry <<< halfCarry) |||
        toByte (boolToUint8 fl.Carry <<< carry) }

/-! ## Bit-level lemmas -/

theorem toByte_lt (n : Nat) : toByte n < 256 := by
  unfold toByte; omega

theorem highByte_eq (v : Nat) : toByte ((v &&& 0xFF00) >>> 8) = (v >>> 8) &&& 0xFF := by
  unfold toByte
  apply Nat.eq_of_testBit_eq
  intro i
  have h1 : (0xFF00 : Nat) = (2 ^ 8 - 1) <<< 8 := by decide
  have h2 : (0xFF : Nat) = 2 ^ 8 - 1 := by decide
  rw [h1, h2]
  simp only [Nat.testBit_mod_two_pow, Nat.testBit_shiftRight, Nat.testBit_and,
    Nat.testBit_shiftLeft, Nat.testBit_two_pow_sub_one]
  by_cases hi : i < 8 <;> simp [hi]

theorem lowByte_eq (v : Nat) : toByte (v &&& 0xFF) = v % 256 := by
  unfold toByte
  have h2 : (0xFF : Nat) = 2 ^ 8 - 1 := by decide
  rw [h2, Nat.and_pow_two_sub_one_eq_mod]
  omega

theorem combine_eq (r : Registers) (i j : Nat) (hi : i < 256) (hj : j < 256) :
    r.combine i j = i * 256 + j := by
  unfold Registers.combine toUint16
  rw [Nat.shiftLeft_eq]
  have e1 : i % 2 ^ 16 = i := Nat.mod_eq_of_lt (by omega)
  have e2 : j % 2 ^ 16 = j := Nat.mod_eq_of_lt (by omega)
  have e3 : i * 2 ^ 8 % 2 ^ 16 = i * 2 ^ 8 := Nat.mod_eq_of_lt (by omega)
  rw [e1, e2, e3, Nat.mul_comm i (2 ^ 8)]
  rw [← Nat.mul_add_lt_is_or (by omega) i]
  omega

theorem combine_split (r : Registers) (v : Nat) (hv : v < 65536) :
    r.combine (toByte ((v &&& 0xFF00) >>> 8)) (toByte (v &&& 0xFF)) = v := by
  rw [combine_eq r _ _ (toByte_lt _) (toByte_lt _), highByte_eq, lowByte_eq]
  have h2 : (0xFF : Nat) = 2 ^ 8 - 1 := by decide
  rw [h2, Nat.and_pow_two_sub_one_eq_mod, Nat.shiftRight_eq_div_pow]
  omega

theorem combine_eq_or (r : Registers) (i j : Nat) (hi : i < 256) (hj : j < 256) :
    r.combine i j = i <<< 8 ||| j := by
  unfold Registers.combine toUint16
  have e1 : i % 2 ^ 16 = i := Nat.mod_eq_of_lt (by omega)
  have e2 : j % 2 ^ 16 = j := Nat.mod_eq_of_lt (by omega)
  have e3 : i <<< 8 % 2 ^ 16 = i <<< 8 := by
    rw [Nat.shiftLeft_eq]
    exact Nat.mod_eq_of_lt (by omega)
  rw [e1, e2, e3]

/-- The all-zero register state. -/
def zeroRegisters : Registers := ⟨0, 0, 0, 0, 0, 0, 0, 0, 0⟩

/-! ## Register pairs -/

/-- C1: writing a 16-bit value to a pair and reading the pair back returns the
value, for each of AF, BC, DE and HL and from every register state. -/
theorem pair_write_read (r : Registers) (v : Nat) (hv : v < 65536) :
    (r.SetAF v).AF = v ∧ (r.SetBC v).BC = v ∧ (r.SetDE v).DE = v ∧ (r.SetHL v).HL = v := by
  have key := combine_split
  refine ⟨?_, ?_, ?_, ?_⟩
  · simpa [Registers.SetAF, Registers.AF, Registers.set, Registers.combine] using
      key r v hv
  · simpa [Registers.SetBC, Registers.BC, Registers.set, Registers.combine, af, bc, iota] using
      key r v hv
  · simpa [Registers.SetDE, Registers.DE, Registers.set, Registers.combine, af, bc, de, iota]
      using key r v hv
  · simpa [Registers.SetHL, Registers.HL, Registers.set, Registers.combine, af, bc, de, hl,
      iota] using key r v hv

/-- Instance of C1 at the value `0xBEEF`, from the all-zero state. -/
theorem pair_write_read_witness :
    (0xBEEF : Nat) < 65536 ∧
      ((zeroRegisters.SetAF 0xBEEF).AF = 0xBEEF ∧ (zeroRegisters.SetBC 0xBEEF).BC = 0xBEEF ∧
        (zeroRegisters.SetDE 0xBEEF).DE = 0xBEEF ∧ (zeroRegisters.SetHL 0xBEEF).HL = 0xBEEF) :=
  ⟨by decide, pair_write_read zeroRegisters 0xBEEF (by decide)⟩

/-- C2: a pair write changes only the two cells of its pair; the six other
cells and the `Flags` byte keep the values they had before the call. -/
theorem pair_write_frame (r : Registers) (v : Nat) :
    ((r.SetAF v).B = r.B ∧ (r.SetAF v).C = r.C ∧ (r.SetAF v).D = r.D ∧ (r.SetAF v).E = r.E ∧
        (r.SetAF v).H = r.H ∧ (r.SetAF v).L = r.L ∧ (r.SetAF v).Flags = r.Flags) ∧
      ((r.SetBC v).A = r.A ∧ (r.SetBC v).D = r.D ∧ (r.SetBC v).E = r.E ∧ (r.SetBC v).F = r.F ∧
        (r.SetBC v).H = r.H ∧ (r.SetBC v).L = r.L ∧ (r.SetBC v).Flags = r.Flags) ∧
      ((r.SetDE v).A = r.A ∧ (r.SetDE v).B = r.B ∧ (r.SetDE v).C = r.C ∧ (r.SetDE v).F = r.F ∧
        (r.SetDE v).H = r.H ∧ (r.SetDE v).L = r.L ∧ (r.SetDE v).Flags = r.Flags) ∧
      ((r.SetHL v).A = r.A ∧ (r.SetHL v).B = r.B ∧ (r.SetHL v).C = r.C ∧ (r.SetHL v).D = r.D ∧
        (r.SetHL v).E = r.E ∧ (r.SetHL v).F = r.F ∧ (r.SetHL v).Flags = r.Flags) := by
  simp [Registers.SetAF, Registers.SetBC, Registers.SetDE, Registers.SetHL, Registers.set,
    af, bc, de, hl, iota]

/-- C3: each pair read is the bitwise composition of its two current cells, the
first-named cell in the high byte: `AF() = (A<<8)|F`, `BC() = (B<<8)|C`,
`DE() = (D<<8)|E`, `HL() = (H<<8)|L`. -/
theorem pair_read_compose (r : Registers) (hr : r.WF) :
    r.AF = r.A <<< 8 ||| r.F ∧ r.BC = r.B <<< 8 ||| r.C ∧ r.DE = r.D <<< 8 ||| r.E ∧
      r.HL = r.H <<< 8 ||| r.L := by
  obtain ⟨hA, hB, hC, hD, hE, hF, hH, hL, _⟩ := hr
  exact ⟨combine_eq_or r _ _ hA hF, combine_eq_or r _ _ hB hC, combine_eq_or r _ _ hD hE,
    combine_eq_or r _ _ hH hL⟩

/-- Instance of C3 at `A = 0x12`, `F = 0x00`, where `AF()` is `0x1200`. -/
theorem pair_read_compose_witness :
    ({ zeroRegisters with A := 0x12, F := 0x00 } : Registers).WF ∧
      ({ zeroRegisters with A := 0x12, F := 0x00 } : Registers).AF = 0x1200 :=
  ⟨by decide,
    (pair_read_compose { zeroRegisters with A := 0x12, F := 0x00 } (by decide)).1.trans
      (by decide)⟩

/-- C4: a pair write stores `(v >> 8) & 0xFF` in the first-named cell and
`v & 0xFF` in the second, for each of AF, BC, DE and HL. -/
theorem pair_write_split (r : Registers) (v : Nat) :
    ((r.SetAF v).A = (v >>> 8) &&& 0xFF ∧ (r.SetAF v).F = v &&& 0xFF) ∧
      ((r.SetBC v).B = (v >>> 8) &&& 0xFF ∧ (r.SetBC v).C = v &&& 0xFF) ∧
      ((r.SetDE v).D = (v >>> 8) &&& 0xFF ∧ (r.SetDE v).E = v &&& 0xFF) ∧
      ((r.SetHL v).H = (v >>> 8) &&& 0xFF ∧ (r.SetHL v).L = v &&& 0xFF) := by
  have h1 := highByte_eq v
  have h2 : toByte (v &&& 0xFF) = v &&& 0xFF := by
    rw [lowByte_eq]
    have e : (0xFF : Nat) = 2 ^ 8 - 1 := by decide
    rw [e, Nat.and_pow_two_sub_one_eq_mod]
  simp [Registers.SetAF, Registers.SetBC, Registers.SetDE, Registers.SetHL, Registers.set,
    af, bc, de, hl, iota, h1, h2]

/-- Sanity check of the split on the value `0xBEEF`. -/
theorem setHL_beef :
    (zeroRegisters.SetHL 0xBEEF).H = 0xBE ∧ (zeroRegisters.SetHL 0xBEEF).L = 0xEF := by
  decide

/-! ## Flags -/

/-- The shift counts used by the flag operations, as the constant block computes them. -/
theorem flag_shift_counts : carry = 16 ∧ halfCarry = 17 ∧ subtract = 18 ∧ zero = 19 := by
  decide

/-- The byte `SetFlags` computes is zero for every `Flags` value. -/
theorem setFlags_byte (r : Registers) (fl : gb.Flags) : (r.SetFlags fl).Flags = 0 := by
  rcases fl with ⟨z, n, hc, cy⟩
  cases z <;> cases n <;> cases hc <;> cases cy <;> rfl

/-- Low byte of a combined pair. -/
theorem combine_mod (r : Registers) (i j : Nat) : r.combine i j % 256 = j % 256 := by
  unfold Registers.combine toUint16
  have e : (256 : Nat) = 2 ^ 8 := by decide
  rw [e]
  apply Nat.eq_of_testBit_eq
  intro k
  simp only [Nat.testBit_mod_two_pow, Nat.testBit_or, Nat.testBit_shiftLeft]
  by_cases hk : k < 8
  · have h16 : k < 16 := by omega
    have h8 : ¬ 8 ≤ k := by omega
    simp [hk, h16, h8]
  · simp [hk]

/-- C5, the code at `{Zero:true, Subtract:false, HalfCarry:true, Carry:false}`:
encoding this value with `SetFlags` and decoding with `ParseFlags` returns the
all-false value, which differs from the value encoded. -/
theorem setFlags_parseFlags_at_zero_halfCarry (r : Registers) :
    (r.SetFlags ⟨true, false, true, false⟩).ParseFlags = ⟨false, false, false, false⟩ ∧
      (r.SetFlags ⟨true, false, true, false⟩).ParseFlags ≠ ⟨true, false, true, false⟩ := by
  have hp :
      (r.SetFlags ⟨true, false, true, false⟩).ParseFlags = ⟨false, false, false, false⟩ := by
    unfold Registers.ParseFlags
    rw [setFlags_byte]
    decide
  rw [hp]
  exact ⟨rfl, by decide⟩

/-- C6, the code at the flags byte `0xF0`: decoding with `ParseFlags` and
encoding the result with `SetFlags` leaves the byte `0`, not `0xF0 & 0b11110000`. -/
theorem parseFlags_setFlags_at_0xF0 :
    (({ zeroRegisters with Flags := 0xF0 } : Registers).SetFlags
        ({ zeroRegisters with Flags := 0xF0 } : Registers).ParseFlags).Flags = 0 ∧
      (0xF0 &&& 0b11110000 : Nat) = 0xF0 := by
  decide

/-- C7, the code at the flags byte `0xA0`: `ParseFlags` returns the all-false
value, although bits 7 and 5 of the byte are set. -/
theorem parseFlags_at_0xA0 :
    ({ zeroRegisters with Flags := 0xA0 } : Registers).ParseFlags = ⟨false, false, false, false⟩ ∧
      Nat.testBit 0xA0 7 = true ∧ Nat.testBit 0xA0 5 = true := by
  decide

/-- C8, the code at `{Zero:true, Subtract:false, HalfCarry:true, Carry:false}`:
`SetFlags` stores the byte `0`, while `1<<7 | 0<<6 | 1<<5 | 0<<4` is `0xA0`. -/
theorem setFlags_at_zero_halfCarry (r : Registers) :
    (r.SetFlags ⟨true, false, true, false⟩).Flags = 0 ∧
      (1 <<< 7 ||| 0 <<< 6 ||| 1 <<< 5 ||| 0 <<< 4 : Nat) = 0xA0 := by
  constructor
  · rfl
  · decide

/-- C9 as stated fails: two states that differ only in the `F` cell still differ
in the `F` cell, and in the low byte of `AF()`, after the same `SetFlags` call. -/
theorem setFlags_F_depends_on_previous_F :
    (zeroRegisters.SetFlags ⟨true, false, true, false⟩).F ≠
        (({ zeroRegisters with F := 1 } : Registers).SetFlags ⟨true, false, true, false⟩).F ∧
      (zeroRegisters.SetFlags ⟨true, false, true, false⟩).AF % 256 ≠
        (({ zeroRegisters with F := 1 } : Registers).SetFlags ⟨true, false, true, false⟩).AF
          % 256 := by
  decide

/-- C9 amended: `SetFlags` overwrites the separate `Flags` byte entirely, so that
byte after the call is the same from any two register states; the `F` cell is
not written, and the low byte of `AF()` after the call is the previous `F`. -/
theorem setFlags_overwrites_Flags_byte (fl : gb.Flags) (r1 r2 : Registers) :
    (r1.SetFlags fl).Flags = (r2.SetFlags fl).Flags ∧ (r1.SetFlags fl).F = r1.F ∧
      (r1.SetFlags fl).AF % 256 = r1.F % 256 := by
  refine ⟨rfl, rfl, ?_⟩
  unfold Registers.AF
  rw [combine_mod]
  rfl

/-- C10: the byte stored by `SetFlags`, the one `ParseFlags` decodes, has bits
0 to 3 all zero, whatever the register state held before. -/
theorem setFlags_low_nibble_zero (r : Registers) (fl : gb.Flags) :
    (r.SetFlags fl).Flags &&& 0x0F = 0 := by
  rw [setFlags_byte]
  decide

/-! ## Register identifiers outside the four pairs -/

/-- The `switch` of `set` falls through for an identifier that is none of the pairs. -/
theorem set_other (r : Registers) (reg v : Nat) (h1 : reg ≠ af) (h2 : reg ≠ bc)
    (h3 : reg ≠ de) (h4 : reg ≠ hl) : r.set reg v = r := by
  simp [Registers.set, h1, h2, h3, h4]

/-- C11 as stated fails: `set` called with the single-register identifier `a`
returns normally, and so it does with the zero value of the identifier type. -/
theorem set_invalid_identifier_returns :
    (a ≠ af ∧ a ≠ bc ∧ a ≠ de ∧ a ≠ hl) ∧ zeroRegisters.setCall a 0xBEEF ≠ none ∧
      zeroRegisters.setCall 0 0xBEEF ≠ none := by
  decide

/-- C11 amended: `set` called with an identifier outside `af`, `bc`, `de`, `hl`
signals no error; it returns normally and is a silent no-op. -/
theorem set_invalid_identifier_silent (r : Registers) (reg v : Nat) (h1 : reg ≠ af)
    (h2 : reg ≠ bc) (h3 : reg ≠ de) (h4 : reg ≠ hl) : r.setCall reg v = some r := by
  unfold Registers.setCall
  rw [set_other r reg v h1 h2 h3 h4]

/-- Instance of the amended C11 at the identifier `a` and the value `0xBEEF`. -/
theorem set_invalid_identifier_silent_witness :
    zeroRegisters.setCall a 0xBEEF = some zeroRegisters :=
  set_invalid_identifier_silent zeroRegisters a 0xBEEF (by decide) (by decide) (by decide)
    (by decide)

/-- C12: `set` called with an identifier outside `af`, `bc`, `de`, `hl` leaves the
register state equal to the one before the call in every field. -/
theorem set_invalid_identifier_no_mutation (r : Registers) (reg v : Nat) (h1 : reg ≠ af)
    (h2 : reg ≠ bc) (h3 : reg ≠ de) (h4 : reg ≠ hl) :
    r.set reg v = r ∧ (r.set reg v).A = r.A ∧ (r.set reg v).B = r.B ∧ (r.set reg v).C = r.C ∧
      (r.set reg v).D = r.D ∧ (r.set reg v).E = r.E ∧ (r.set reg v).F = r.F ∧
      (r.set reg v).H = r.H ∧ (r.set reg v).L = r.L ∧ (r.set reg v).Flags = r.Flags := by
  rw [set_other r reg v h1 h2 h3 h4]
  simp

/-- Instance of C12 at the identifier `l`, the value `0xBEEF` and a state with
nine distinct bytes. -/
theorem set_invalid_identifier_no_mutation_witness :
    (⟨1, 2, 3, 4, 5, 6, 7, 8, 9⟩ : Registers).set l 0xBEEF = ⟨1, 2, 3, 4, 5, 6, 7, 8, 9⟩ :=
  (set_invalid_identifier_no_mutation ⟨1, 2, 3, 4, 5, 6, 7, 8, 9⟩ l 0xBEEF (by decide)
    (by decide) (by decide) (by decide)).1

/-! ## The low nibble of the `F` cell -/

/-- Low nibble of the low byte that `set` computes. -/
theorem lowByte_nibble (v : Nat) : toByte (v &&& 0xFF) &&& 0x0F = v &&& 0x0F := by
  unfold toByte
  have e8 : (0xFF : Nat) = 2 ^ 8 - 1 := by decide
  have e4 : (0x0F : Nat) = 2 ^ 4 - 1 := by decide
  rw [e8, e4]
  apply Nat.eq_of_testBit_eq
  intro k
  simp only [Nat.testBit_and, Nat.testBit_mod_two_pow, Nat.testBit_two_pow_sub_one]
  by_cases hk : k < 4
  · have h8 : k < 8 := by omega
    simp [hk, h8]
  · simp [hk]

/-- The `F` cell after `SetAF` is the low byte computed by `set`. -/
theorem setAF_F (r : Registers) (v : Nat) : (r.SetAF v).F = toByte (v &&& 0xFF) := by
  simp [Registers.SetAF, Registers.set]

/-- C13 as stated fails: `F & 0x0F = 0` holds in the all-zero state and no longer
holds after `SetAF(0x0001)`. -/
theorem setAF_breaks_low_nibble :
    zeroRegisters.F &&& 0x0F = 0 ∧ (zeroRegisters.SetAF 0x0001).F &&& 0x0F ≠ 0 := by
  decide

/-- C13 amended: `F & 0x0F = 0` holds in the all-zero state; `SetBC`, `SetDE`,
`SetHL` and `SetFlags` preserve it with any argument; after `SetAF(v)` the low
nibble of `F` is the low nibble of `v`, so `SetAF(v)` preserves it when
`v & 0x0F = 0`. -/
theorem low_nibble_preserved_except_setAF (r : Registers) (v : Nat) (fl : gb.Flags)
    (hr : r.F &&& 0x0F = 0) :
    zeroRegisters.F &&& 0x0F = 0 ∧ (r.SetBC v).F &&& 0x0F = 0 ∧ (r.SetDE v).F &&& 0x0F = 0 ∧
      (r.SetHL v).F &&& 0x0F = 0 ∧ (r.SetFlags fl).F &&& 0x0F = 0 ∧
      (r.SetAF v).F &&& 0x0F = v &&& 0x0F ∧
      (v &&& 0x0F = 0 → (r.SetAF v).F &&& 0x0F = 0) := by
  have hBC : (r.SetBC v).F = r.F := by
    simp [Registers.SetBC, Registers.set, af, bc, iota]
  have hDE : (r.SetDE v).F = r.F := by
    simp [Registers.SetDE, Registers.set, af, bc, de, iota]
  have hHL : (r.SetHL v).F = r.F := by
    simp [Registers.SetHL, Registers.set, af, bc, de, hl, iota]
  have hFl : (r.SetFlags fl).F = r.F := rfl
  have hAF : (r.SetAF v).F &&& 0x0F = v &&& 0x0F := by
    rw [setAF_F, lowByte_nibble]
  refine ⟨by decide, ?_, ?_, ?_, ?_, hAF, ?_⟩
  · rw [hBC]; exact hr
  · rw [hDE]; exact hr
  · rw [hHL]; exact hr
  · rw [hFl]; exact hr
  · intro hv
    rw [hAF]; exact hv

/-- Instance of the amended C13 at the state with `F = 0xA0`, the value `0x1230`
and the flags `{Zero:true, Subtract:false, HalfCarry:true, Carry:false}`. -/
theorem low_nibble_preserved_except_setAF_witness :
    (({ zeroRegisters with F := 0xA0 } : Registers).SetBC 0x1230).F &&& 0x0F = 0 ∧
      (({ zeroRegisters with F := 0xA0 } : Registers).SetAF 0x1230).F &&& 0x0F = 0 :=
  have hw := low_nibble_preserved_except_setAF { zeroRegisters with F := 0xA0 } 0x1230
    ⟨true, false, true, false⟩ (by decide)
  ⟨hw.2.1, hw.2.2.2.2.2.2 (by decide)⟩

/-! ## Doc comments of the pair readers -/

/-- C14 as stated fails: with `B = 1`, `D = 2`, `H = 3` and every other cell zero,
`BC()`, `DE()` and `HL()` are `0x0100`, `0x0200` and `0x0300`, while `(A<<8)|F` is `0`. -/
theorem pair_readers_not_AF :
    ({ zeroRegisters with B := 1, D := 2, H := 3 } : Registers).BC = 0x0100 ∧
      ({ zeroRegisters with B := 1, D := 2, H := 3 } : Registers).DE = 0x0200 ∧
      ({ zeroRegisters with B := 1, D := 2, H := 3 } : Registers).HL = 0x0300 ∧
      ({ zeroRegisters with B := 1, D := 2, H := 3 } : Registers).A <<< 8 |||
        ({ zeroRegisters with B := 1, D := 2, H := 3 } : Registers).F = 0 := by
  decide

/-- C14 amended: `BC()`, `DE()` and `HL()` each return the combination of their
own two cells, `(B<<8)|C`, `(D<<8)|E` and `(H<<8)|L`; each equals `AF()` only
when its two cells hold the same bytes as `A` and `F`. -/
theorem pair_readers_own_cells (r : Registers) (hr : r.WF) :
    (r.BC = r.B <<< 8 ||| r.C ∧ r.DE = r.D <<< 8 ||| r.E ∧ r.HL = r.H <<< 8 ||| r.L) ∧
      (r.BC = r.AF ↔ r.B = r.A ∧ r.C = r.F) ∧ (r.DE = r.AF ↔ r.D = r.A ∧ r.E = r.F) ∧
      (r.HL = r.AF ↔ r.H = r.A ∧ r.L = r.F) := by
  obtain ⟨hA, hB, hC, hD, hE, hF, hH, hL, _⟩ := hr
  refine ⟨⟨combine_eq_or r _ _ hB hC, combine_eq_or r _ _ hD hE, combine_eq_or r _ _ hH hL⟩,
    ?_, ?_, ?_⟩
  · unfold Registers.BC Registers.AF
    rw [combine_eq r _ _ hB hC, combine_eq r _ _ hA hF]
    omega
  · unfold Registers.DE Registers.AF
    rw [combine_eq r _ _ hD hE, combine_eq r _ _ hA hF]
    omega
  · unfold Registers.HL Registers.AF
    rw [combine_eq r _ _ hH hL, combine_eq r _ _ hA hF]
    omega

/-- Instance of the amended C14 at a state with nine distinct bytes. -/
theorem pair_readers_own_cells_witness :
    (⟨0x12, 0x34, 0x56, 0x78, 0x9A, 0xBC, 0xDE, 0xF0, 0x0F⟩ : Registers).BC = 0x3456 :=
  (pair_readers_own_cells ⟨0x12, 0x34, 0x56, 0x78, 0x9A, 0xBC, 0xDE, 0xF0, 0x0F⟩
    (by decide)).1.1.trans (by decide)

/-! ## The flag constants -/

/-- C15, the code: the constant block gives `carry = 16`, `halfCarry = 17`,
`subtract = 18` and `zero = 19`, because `iota` is 12 to 15 in their
specifications; none of them is the bit position 4, 5, 6 or 7. -/
theorem flag_constants_from_block :
    (iota .carry = 12 ∧ iota .halfCarry = 13 ∧ iota .subtract = 14 ∧ iota .zero = 15) ∧
      (carry = 16 ∧ halfCarry = 17 ∧ subtract = 18 ∧ zero = 19) ∧
      (carry ≠ 4 ∧ halfCarry ≠ 5 ∧ subtract ≠ 6 ∧ zero ≠ 7) := by
  decide

/-! ## Reading a pair and writing it back -/

/-- The split that `set` performs recovers the two bytes of a combined pair. -/
theorem split_combine (r : Registers) (i j : Nat) (hi : i < 256) (hj : j < 256) :
    toByte ((r.combine i j &&& 0xFF00) >>> 8) = i ∧ toByte (r.combine i j &&& 0xFF) = j := by
  rw [highByte_eq, lowByte_eq, combine_eq r i j hi hj]
  have e : (0xFF : Nat) = 2 ^ 8 - 1 := by decide
  rw [e, Nat.and_pow_two_sub_one_eq_mod, Nat.shiftRight_eq_div_pow]
  omega

/-- C16: writing back the value just read from a pair leaves every field of the
register state unchanged, for each of AF, BC, DE and HL. -/
theorem pair_read_write_identity (r : Registers) (hr : r.WF) :
    r.SetAF r.AF = r ∧ r.SetBC r.BC = r ∧ r.SetDE r.DE = r ∧ r.SetHL r.HL = r := by
  obtain ⟨hA, hB, hC, hD, hE, hF, hH, hL, _⟩ := hr
  obtain ⟨a1, a2⟩ := split_combine r r.A r.F hA hF
  obtain ⟨b1, b2⟩ := split_combine r r.B r.C hB hC
  obtain ⟨d1, d2⟩ := split_combine r r.D r.E hD hE
  obtain ⟨h1, h2⟩ := split_combine r r.H r.L hH hL
  refine ⟨?_, ?_, ?_, ?_⟩
  · simp only [Registers.SetAF, Registers.AF, Registers.set, a1, a2]
    simp
  · simp only [Registers.SetBC, Registers.BC, Registers.set, b1, b2]
    simp [af, bc, iota]
  · simp only [Registers.SetDE, Registers.DE, Registers.set, d1, d2]
    simp [af, bc, de, iota]
  · simp only [Registers.SetHL, Registers.HL, Registers.set, h1, h2]
    simp [af, bc, de, hl, iota]

/-- Instance of C16 at a state with nine distinct bytes. -/
theorem pair_read_write_identity_witness :
    (⟨0x12, 0x34, 0x56, 0x78, 0x9A, 0xBC, 0xDE, 0xF0, 0x0F⟩ : Registers).WF ∧
      (⟨0x12, 0x34, 0x56, 0x78, 0x9A, 0xBC, 0xDE, 0xF0, 0x0F⟩ : Registers).SetHL
          (⟨0x12, 0x34, 0x56, 0x78, 0x9A, 0xBC, 0xDE, 0xF0, 0x0F⟩ : Registers).HL =
        ⟨0x12, 0x34, 0x56, 0x78, 0x9A, 0xBC, 0xDE, 0xF0, 0x0F⟩ :=
  ⟨by decide,
    (pair_read_write_identity ⟨0x12, 0x34, 0x56, 0x78, 0x9A, 0xBC, 0xDE, 0xF0, 0x0F⟩
      (by decide)).2.2.2⟩

/-! ## What the flag operations compute -/

/-- C17: `SetFlags` changes only the `Flags` field; the cells A, B, C, D, E, F, H
and L keep their values, and `AF()`, `BC()`, `DE()` and `HL()` return the same
values after the call as before. -/
theorem setFlags_frame (r : Registers) (fl : gb.Flags) :
    ((r.SetFlags fl).A = r.A ∧ (r.SetFlags fl).B = r.B ∧ (r.SetFlags fl).C = r.C ∧
        (r.SetFlags fl).D = r.D ∧ (r.SetFlags fl).E = r.E ∧ (r.SetFlags fl).F = r.F ∧
        (r.SetFlags fl).H = r.H ∧ (r.SetFlags fl).L = r.L) ∧
      (r.SetFlags fl).AF = r.AF ∧ (r.SetFlags fl).BC = r.BC ∧ (r.SetFlags fl).DE = r.DE ∧
      (r.SetFlags fl).HL = r.HL :=
  ⟨⟨rfl, rfl, rfl, rfl, rfl, rfl, rfl, rfl⟩, rfl, rfl, rfl, rfl⟩

/-- A byte shifted right by eight or more places has no bit left. -/
theorem byte_shiftRight_zero (x k : Nat) (hx : x < 256) (hk : 8 ≤ k) : x >>> k = 0 := by
  rw [Nat.shiftRight_eq_div_pow]
  apply Nat.div_eq_of_lt
  have h8 : (2 : Nat) ^ 8 ≤ 2 ^ k := Nat.pow_le_pow_right (by decide) hk
  omega

/-- C18: `ParseFlags` returns the all-false `Flags` value from every register
state, each of the four shift counts being at least 8. -/
theorem parseFlags_constant (r : Registers) (hr : r.WF) :
    r.ParseFlags = ⟨false, false, false, false⟩ ∧
      (8 ≤ zero ∧ 8 ≤ subtract ∧ 8 ≤ halfCarry ∧ 8 ≤ carry) := by
  obtain ⟨_, _, _, _, _, _, _, _, hFl⟩ := hr
  have hk : 8 ≤ zero ∧ 8 ≤ subtract ∧ 8 ≤ halfCarry ∧ 8 ≤ carry := by decide
  refine ⟨?_, hk⟩
  unfold Registers.ParseFlags
  rw [byte_shiftRight_zero _ _ hFl hk.1, byte_shiftRight_zero _ _ hFl hk.2.1,
    byte_shiftRight_zero _ _ hFl hk.2.2.1, byte_shiftRight_zero _ _ hFl hk.2.2.2]
  decide

/-- Instance of C18 at the state whose `Flags` byte and `F` cell both hold `0xFF`. -/
theorem parseFlags_constant_witness :
    ({ zeroRegisters with F := 0xFF, Flags := 0xFF } : Registers).ParseFlags =
      ⟨false, false, false, false⟩ :=
  (parseFlags_constant { zeroRegisters with F := 0xFF, Flags := 0xFF } (by decide)).1

/-- C19: `SetFlags` stores `0` in the `Flags` byte for every register state and
every `Flags` value, each of the four shifted bytes being `0` in eight bits. -/
theorem setFlags_stores_zero (r : Registers) (fl : gb.Flags) :
    (r.SetFlags fl).Flags = 0 ∧
      (toByte (boolToUint8 fl.Zero <<< zero) = 0 ∧
        toByte (boolToUint8 fl.Subtract <<< subtract) = 0 ∧
        toByte (boolToUint8 fl.HalfCarry <<< halfCarry) = 0 ∧
        toByte (boolToUint8 fl.Carry <<< carry) = 0) := by
  refine ⟨setFlags_byte r fl, ?_⟩
  rcases fl with ⟨z, n, hc, cy⟩
  cases z <;> cases n <;> cases hc <;> cases cy <;> decide

end gb
